import Mathlib

/-!
Verification of the Simon game core (game.py, buttons.py, scores.py).

The state machine of `SimonGame` is embedded shallowly: the mutable fields of
the window object become fields of `GState`, the FLTK timeout queue becomes an
explicit list of pending (delay, callback) entries, and each method of the
class becomes a pure state transformer.  Durations are rationals; the decimal
literals of the source are represented exactly.  Dialog results (fl_input,
fl_choice) become explicit parameters.  Randomness (randint) becomes an
explicit argument to `play_seq`.
-/

namespace Simon

/-- The callbacks the program passes to Fl.add_timeout: SimonGame.play_seq,
SimonGame.gameover, SimonGame.activate_buts, GameButton.auto_click and
GameButton.but_off for each of the four buttons, and
SimonGame.play_error_sound (scheduled with stop=True). -/
inductive Callback where
  | playSeq
  | gameover
  | activateButs
  | autoClick (i : Fin 4)
  | butOff (i : Fin 4)
  | playErrorSound
deriving DecidableEq, Repr

/-- The game-relevant mutable state of a SimonGame window: the sequence and
the player progress lists, the timing fields, whether the four game buttons
are activated (they are activated and deactivated together), the on/off state
of the four button lights, and the pending Fl timeouts. -/
structure GState where
  sequence : List (Fin 4)
  player_seq : List (Fin 4)
  duration : ℚ
  interval : ℚ
  active : Bool
  lights : List Bool
  pending : List (ℚ × Callback)
deriving DecidableEq, Repr

/-- Fl.add_timeout t cb: one more pending entry. -/
def addTimeout (p : List (ℚ × Callback)) (t : ℚ) (c : Callback) :
    List (ℚ × Callback) :=
  p ++ [(t, c)]

/-- Fl.remove_timeout cb: drop every pending entry with that callback. -/
def removeTimeout (p : List (ℚ × Callback)) (c : Callback) :
    List (ℚ × Callback) :=
  p.filter (fun e => e.2 ≠ c)

/-- SimonGame.deactivate_buts: deactivate all four game buttons. -/
def deactivate_buts (s : GState) : GState :=
  { s with active := false }

/-- SimonGame.activate_buts: activate all four game buttons. -/
def activate_buts (s : GState) : GState :=
  { s with active := true }

/-- SimonGame.all_off: but_off on every button, all lights go off. -/
def all_off (s : GState) : GState :=
  { s with lights := s.lights.map (fun _ => false) }

/-- SimonGame.remove_timeouts: remove the play_seq, gameover and
activate_buts timeouts and the auto_click timeout of each of the four
game buttons. -/
def remove_timeouts (s : GState) : GState :=
  { s with pending :=
      removeTimeout (removeTimeout (removeTimeout (removeTimeout
        (removeTimeout (removeTimeout (removeTimeout s.pending
          .playSeq) .gameover) .activateButs)
        (.autoClick 0)) (.autoClick 1)) (.autoClick 2)) (.autoClick 3) }

/-- SimonGame.stop_game: all_off, remove_timeouts, deactivate_buts, clear
both lists, reset duration to 0.46 and interval to 0.108. -/
def stop_game (s : GState) : GState :=
  let s1 := deactivate_buts (remove_timeouts (all_off s))
  { s1 with sequence := [], player_seq := [],
            duration := 0.46, interval := 0.108 }

/-- SimonGame.new_game: stop_game, then schedule play_seq after 0.3 s. -/
def new_game (s : GState) : GState :=
  let s1 := stop_game s
  { s1 with pending := addTimeout s1.pending 0.3 .playSeq }

/-- SimonGame.play_seq with the random button r in place of randint(0, 3):
deactivate the buttons, append r to the sequence, apply the speed-up at
lengths 6 and 14, schedule auto_click of button sequence[b] at offset
duration*b + interval*b for every index b, clear player_seq, schedule
activate_buts at duration*n + interval*n and gameover 5 s later. -/
def play_seq (s : GState) (r : Fin 4) : GState :=
  let s1 := deactivate_buts s
  let s2 := { s1 with sequence := s1.sequence ++ [r] }
  let s3 :=
    if s2.sequence.length = 6 then
      { s2 with duration := 0.36, interval := 0.108 }
    else if s2.sequence.length = 14 then
      { s2 with duration := 0.26, interval := 0.108 }
    else s2
  let autos := s3.sequence.enum.map
    (fun bi => ((s3.duration * bi.1 + s3.interval * bi.1 : ℚ),
                Callback.autoClick bi.2))
  let seq_time : ℚ :=
    s3.duration * s3.sequence.length + s3.interval * s3.sequence.length
  { s3 with
      player_seq := [],
      pending := addTimeout (addTimeout (s3.pending ++ autos)
        seq_time .activateButs) (seq_time + 5) .gameover }

/-- SimonGame.is_correct: build seq as a copy of player_seq with ans
appended, then compare seq[-1] with sequence[len(seq) - 1].  The sequence
lookup can raise IndexError, hence the Option result: none is the fault. -/
def is_correct (s : GState) (ans : Fin 4) : Option Bool :=
  let seq := s.player_seq ++ [ans]
  (s.sequence.get? (seq.length - 1)).map
    (fun x => seq.getLast (by simp [seq]) == x)

/-- SimonGame.is_correct together with the state it leaves behind: the
method mutates only its local copy of player_seq, so the state component of
the result is the input state. -/
def is_correct_run (s : GState) (ans : Fin 4) : Option Bool × GState :=
  let seq0 := s.player_seq
  let seq := seq0 ++ [ans]
  ((s.sequence.get? (seq.length - 1)).map
    (fun x => seq.getLast (by simp [seq]) == x),
   s)

/-- GameButton.manual_click of button i: light the button; the is_correct
call only selects which sound to play and leaves the state alone. -/
def manual_click (s : GState) (i : Fin 4) : GState :=
  { (is_correct_run s i).2 with lights := s.lights.set i true }

/-- GameButton.auto_click of button i with duration argument d: light the
button and reschedule its but_off after d seconds. -/
def auto_click (s : GState) (i : Fin 4) (d : ℚ) : GState :=
  { s with lights := s.lights.set i true,
           pending := addTimeout (removeTimeout s.pending (.butOff i))
             d (.butOff i) }

/-- GameButton.but_off with manual=False: the light goes off (the
manual=True path continues into player_ans and is part of `press`). -/
def but_off (s : GState) (i : Fin 4) : GState :=
  { s with lights := s.lights.set i false }

/-- SimonGame.gameover, game-state part: compute the points, stop the game,
and when the cause is the timeout start the error sound, which schedules
play_error_sound(stop=True) after 1.3 s.  The score-list part of the method
is `gameoverScores` below.  Returns (points, new state). -/
def gameover_run (s : GState) (timeout : Bool) : ℤ × GState :=
  let points : ℤ := max ((s.sequence.length : ℤ) - 1) 0
  let s1 := stop_game s
  let s2 :=
    if timeout then
      { s1 with pending := addTimeout s1.pending 1.3 .playErrorSound }
    else s1
  (points, s2)

/-- SimonGame.player_ans: remove the gameover timeout, then check the click.
A correct click is appended to player_seq; a completed round deactivates the
buttons and schedules play_seq after 0.5 s, otherwise a fresh 5 s gameover
timeout is set.  A wrong click ends the game.  none is the IndexError fault
propagating out of is_correct. -/
def player_ans (s : GState) (ans : Fin 4) : Option GState :=
  let s1 := { s with pending := removeTimeout s.pending .gameover }
  match is_correct s1 ans with
  | none => none
  | some true =>
      let s2 := { s1 with player_seq := s1.player_seq ++ [ans] }
      if s2.player_seq.length = s2.sequence.length then
        let s3 := deactivate_buts s2
        some { s3 with pending := addTimeout s3.pending 0.5 .playSeq }
      else
        some { s2 with pending := addTimeout s2.pending 5 .gameover }
  | some false => some (gameover_run s1 false).2

/-- A full press and release of game button i.  A deactivated FLTK widget
receives no events, so when the buttons are deactivated the press leaves the
state unchanged; otherwise FL_PUSH runs manual_click, FL_RELEASE runs
but_off(manual=True) which turns the light off and hands the click to
player_ans. -/
def press (s : GState) (i : Fin 4) : Option GState :=
  if s.active then
    let s1 := manual_click s i
    let s2 := { s1 with lights := s1.lights.set i false }
    player_ans s2 i
  else some s

/-- The state of the window right after SimonGame.__init__: empty lists,
duration 0.42, interval 0.08, buttons deactivated, lights off, no pending
timeouts. -/
def init : GState :=
  { sequence := [], player_seq := [], duration := 0.42, interval := 0.08,
    active := false, lights := [false, false, false, false], pending := [] }

/-- The events that drive the state machine: the menu commands, the firing
of each kind of pending callback (auto_click fires carrying the duration
argument it was scheduled with), and a press of a game button. -/
inductive Ev where
  | start
  | stop
  | fireSeq (r : Fin 4)
  | fireActivate
  | fireTimeout
  | fireAutoClick (i : Fin 4) (d : ℚ)
  | fireButOff (i : Fin 4)
  | fireErrStop
  | press (i : Fin 4)

/-- Whether some pending entry carries callback c. -/
def hasCb (s : GState) (c : Callback) : Bool :=
  s.pending.any (fun e => e.2 == c)

/-- Firing a pending callback consumes one matching entry. -/
def fire (s : GState) (c : Callback) : GState :=
  { s with pending := s.pending.eraseP (fun e => e.2 == c) }

/-- One step of the event loop: a scheduled callback may fire only while a
matching entry is pending; a press is delivered to the button.  none means
the event cannot occur (or the handler raised). -/
def step (s : GState) : Ev → Option GState
  | .start => some (new_game s)
  | .stop => some (stop_game s)
  | .fireSeq r =>
      if hasCb s .playSeq then some (play_seq (fire s .playSeq) r) else none
  | .fireActivate =>
      if hasCb s .activateButs then
        some (activate_buts (fire s .activateButs))
      else none
  | .fireTimeout =>
      if hasCb s .gameover then
        some (gameover_run (fire s .gameover) true).2
      else none
  | .fireAutoClick i d =>
      if hasCb s (.autoClick i) then
        some (auto_click (fire s (.autoClick i)) i d)
      else none
  | .fireButOff i =>
      if hasCb s (.butOff i) then some (but_off (fire s (.butOff i)) i)
      else none
  | .fireErrStop =>
      if hasCb s .playErrorSound then some (fire s .playErrorSound) else none
  | .press i => press s i

/-- The states reachable from the freshly constructed window. -/
inductive Reach : GState → Prop where
  | base : Reach init
  | next {s s' : GState} {e : Ev} : Reach s → step s e = some s' → Reach s'

/-- The playback schedule that play_seq builds for a sequence and the
current timing fields: one entry (stepIndex, buttonId, startOffset,
duration) per sequence step, with startOffset duration*b + interval*b as in
the source loop. -/
def buildPlaybackPlan (sequence : List (Fin 4)) (duration interval : ℚ) :
    List (ℕ × Fin 4 × ℚ × ℚ) :=
  sequence.enum.map
    (fun bi => (bi.1, bi.2, duration * bi.1 + interval * bi.1, duration))

/-- seq_time of play_seq: the moment activate_buts is scheduled for. -/
def turnStartOffset (n : ℕ) (duration interval : ℚ) : ℚ :=
  duration * n + interval * n

/-- The inactivity deadline play_seq schedules gameover for. -/
def timeoutOffset (n : ℕ) (duration interval : ℚ) : ℚ :=
  turnStartOffset n duration interval + 5

/-- The timing fields as a pair, for the tier function. -/
structure TimingProfile where
  duration : ℚ
  interval : ℚ
deriving DecidableEq, Repr

/-- The timing stop_game resets to. -/
def tier0 : TimingProfile := ⟨0.46, 0.108⟩

/-- The speed-up step of play_seq: when the sequence length reaches 6 or 14
the timing fields are overwritten, otherwise they are kept. -/
def updateTiming (n : ℕ) (p : TimingProfile) : TimingProfile :=
  if n = 6 then ⟨0.36, 0.108⟩
  else if n = 14 then ⟨0.26, 0.108⟩
  else p

/-- The timing in force once the sequence has grown to length n within one
game: starting from the stop_game values, apply the play_seq speed-up step
at each length 1, 2, ..., n in turn. -/
def timingForLength (n : ℕ) : TimingProfile :=
  (List.range n).foldl (fun p k => updateTiming (k + 1) p) tier0

/-- One saved score: the value, the player name and the date string.  The
blank placeholder Score() has value 0 and name and date N/A. -/
structure Score where
  value : ℤ
  name : String
  date : String
deriving DecidableEq, Repr

/-- Score(): the blank placeholder entry. -/
def defaultScore : Score := ⟨0, "N/A", "N/A"⟩

/-- The descending-by-value order the source sorts with
(sort(key=lambda s: s.value, reverse=True)). -/
def scoreDesc (a b : Score) : Bool := decide (b.value ≤ a.value)

/-- list.sort(key=lambda s: s.value, reverse=True): a stable descending
sort by value. -/
def sortScoresDesc (l : List Score) : List Score := l.mergeSort scoreDesc

/-- The loop of SimonGame.gameover that removes every score whose date is
N/A (the blank placeholder entries). -/
def removeDefaultScores (l : List Score) : List Score :=
  l.filter (fun s => s.date ≠ "N/A")

/-- Python name-or-Anonymous on an optional dialog result. -/
def orAnonymous : Option String → String
  | some nm => if nm = "" then "Anonymous" else nm
  | none => "Anonymous"

/-- The score-list part of SimonGame.gameover.  points is the computed
score, date the current date string; name1 is the result of the first
fl_input (none when the user cancelled), choice the result of fl_choice
(0 = Yes = throw out, positive = No = keep, none = closed), name2 the
result of the last-chance fl_input.  The placeholder entries are removed
first; a given name records the score and re-sorts; cancelling with more
than 2 points either appends the placeholder back (throw out) or records
the score after the last-chance prompt; cancelling with at most 2 points
records nothing. -/
def gameoverScores (scores : List Score) (points : ℤ) (date : String)
    (name1 : Option String) (choice : Option ℕ) (name2 : Option String) :
    List Score :=
  let scores1 := removeDefaultScores scores
  match name1 with
  | some nm =>
      sortScoresDesc (scores1 ++ [⟨points, orAnonymous (some nm), date⟩])
  | none =>
      if 2 < points then
        match choice with
        | none => scores1 ++ [defaultScore]
        | some 0 => scores1 ++ [defaultScore]
        | some (_ + 1) =>
            sortScoresDesc (scores1 ++ [⟨points, orAnonymous name2, date⟩])
      else scores1

/-- Scorewin.reset_cb: the score list becomes the single placeholder. -/
def resetScores : List Score := [defaultScore]

/-- The callbacks the spec charges the state machine with tracking: the
auto-play steps, the turn-start callback, the response-timeout callback,
and the round-start callback. -/
def smCb : Callback → Bool
  | .playSeq => true
  | .gameover => true
  | .activateButs => true
  | .autoClick _ => true
  | .butOff _ => false
  | .playErrorSound => false

/-- How many pending entries of state s carry callback c. -/
def cnt (s : GState) (c : Callback) : ℕ :=
  s.pending.countP (fun e => e.2 == c)

theorem countP_eraseP_self {α : Type} (l : List α) (p : α → Bool) :
    (l.eraseP p).countP p + (if l.any p then 1 else 0) = l.countP p := by
  induction l with
  | nil => simp
  | cons a l ih =>
      by_cases h : p a = true
      · simp [List.eraseP_cons, h, List.countP_cons]
      · simp only [List.eraseP_cons, h, cond_false, List.countP_cons,
          List.any_cons, Bool.false_or]
        omega

theorem countP_eraseP_disj {α : Type} (l : List α) (p q : α → Bool)
    (h : ∀ a, p a = true → q a = false) :
    (l.eraseP p).countP q = l.countP q := by
  induction l with
  | nil => simp
  | cons a l ih =>
      by_cases hp : p a = true
      · simp [List.eraseP_cons, hp, List.countP_cons, h a hp]
      · simp [List.eraseP_cons, hp, List.countP_cons, ih]

theorem countP_filter_zero {α : Type} (l : List α) (p q : α → Bool)
    (h : ∀ a, q a = true → p a = false) :
    (l.filter p).countP q = 0 := by
  rw [List.countP_filter, List.countP_eq_zero]
  intro a _ hc
  simp only [Bool.and_eq_true] at hc
  simp [h a hc.1] at hc

theorem countP_filter_keep {α : Type} (l : List α) (p q : α → Bool)
    (h : ∀ a, q a = true → p a = true) :
    (l.filter p).countP q = l.countP q := by
  rw [List.countP_filter]
  refine List.countP_congr (fun a _ => ?_)
  simp only [Bool.and_eq_true]
  exact ⟨fun hc => hc.1, fun hc => ⟨hc, h a hc⟩⟩

theorem stop_game_pending (s : GState) :
    (stop_game s).pending = s.pending.filter (fun e => !smCb e.2) := by
  show List.filter _ (List.filter _ (List.filter _ (List.filter _
    (List.filter _ (List.filter _ (List.filter _ s.pending)))))) = _
  simp only [List.filter_filter]
  refine List.filter_congr (fun e _ => ?_)
  rcases e with ⟨t, c⟩
  rcases c with _ | _ | _ | i | i | _ <;> first
    | rfl
    | (fin_cases i <;> rfl)

theorem cnt_stop_game (s : GState) (c : Callback) (hc : smCb c = true) :
    cnt (stop_game s) c = 0 := by
  rw [cnt, stop_game_pending]
  refine countP_filter_zero _ _ _ (fun e he => ?_)
  have : e.2 = c := by simpa using he
  simp [this, hc]

theorem cnt_addTimeout (p : List (ℚ × Callback)) (t : ℚ) (c' c : Callback) :
    (addTimeout p t c').countP (fun e => e.2 == c) =
      p.countP (fun e => e.2 == c) + (if c' = c then 1 else 0) := by
  rw [addTimeout, List.countP_append]
  by_cases h : c' = c <;> simp [h]

theorem cnt_removeTimeout_other (p : List (ℚ × Callback)) (c' c : Callback)
    (h : c' ≠ c) :
    (removeTimeout p c').countP (fun e => e.2 == c) =
      p.countP (fun e => e.2 == c) := by
  refine countP_filter_keep _ _ _ (fun e he => ?_)
  have : e.2 = c := by simpa using he
  simp [this, Ne.symm h]

theorem cnt_fire_self (s : GState) (c : Callback) :
    cnt (fire s c) c + (if hasCb s c then 1 else 0) = cnt s c :=
  countP_eraseP_self s.pending (fun e => e.2 == c)

theorem cnt_fire_other (s : GState) (c' c : Callback) (h : c' ≠ c) :
    cnt (fire s c') c = cnt s c := by
  refine countP_eraseP_disj _ _ _ (fun e he => ?_)
  have : e.2 = c' := by simpa using he
  simp [this, h]

theorem is_correct_eq (s : GState) (ans : Fin 4) :
    is_correct s ans =
      (s.sequence.get? s.player_seq.length).map (fun x => x == ans) := by
  have hb : ∀ x : Fin 4, (ans == x) = (x == ans) := by
    intro x
    by_cases h : ans = x <;> simp [h, beq_iff_eq]
    exact fun hh => h hh.symm
  simp only [is_correct]
  have hl : (s.player_seq ++ [ans]).length - 1 = s.player_seq.length := by
    simp
  rw [hl]
  cases hx : s.sequence.get? s.player_seq.length with
  | none => simp
  | some x => simp [List.getLast_concat, hb x]

theorem prefix_append_of_get {ps seq : List (Fin 4)} {a : Fin 4}
    (h : ps <+: seq) (hg : seq.get? ps.length = some a) :
    ps ++ [a] <+: seq := by
  rw [List.prefix_iff_eq_take] at h ⊢
  have hlen : (ps ++ [a]).length = ps.length + 1 := by simp
  rw [hlen, List.take_succ]
  have : seq[ps.length]? = some a := by simpa [← List.get?_eq_getElem?] using hg
  rw [this]
  simpa using congrArg (· ++ [a]) h

theorem hasCb_iff (s : GState) (c : Callback) :
    hasCb s c = true ↔ 0 < cnt s c := by
  rw [hasCb, List.any_eq_true, cnt, List.countP_pos]

theorem play_seq_spec (s : GState) (r : Fin 4) :
    play_seq s r =
      { sequence := s.sequence ++ [r], player_seq := [],
        duration := (play_seq s r).duration,
        interval := (play_seq s r).interval,
        active := false, lights := s.lights,
        pending := s.pending ++
          (s.sequence ++ [r]).enum.map
            (fun bi => (((play_seq s r).duration * bi.1 +
              (play_seq s r).interval * bi.1 : ℚ),
              Callback.autoClick bi.2)) ++
          [(((play_seq s r).duration * (s.sequence ++ [r]).length +
              (play_seq s r).interval * (s.sequence ++ [r]).length : ℚ),
            .activateButs),
           (((play_seq s r).duration * (s.sequence ++ [r]).length +
              (play_seq s r).interval * (s.sequence ++ [r]).length + 5 : ℚ),
            .gameover)] } := by
  by_cases h6 : s.sequence.length = 5 <;>
    by_cases h14 : s.sequence.length = 13 <;>
      simp [play_seq, deactivate_buts, addTimeout, h6, h14,
        List.append_assoc]

theorem countP_autoClicks (l : List (ℕ × Fin 4)) (f : ℕ × Fin 4 → ℚ)
    (c : Callback) (hc : ∀ i, Callback.autoClick i ≠ c) :
    (l.map (fun bi => (f bi, Callback.autoClick bi.2))).countP
      (fun e => e.2 == c) = 0 := by
  rw [List.countP_eq_zero]
  intro a ha
  obtain ⟨bi, _, rfl⟩ := List.mem_map.mp ha
  simp [hc bi.2]

theorem cnt_play_seq_act (s : GState) (r : Fin 4) :
    cnt (play_seq s r) .activateButs = cnt s .activateButs + 1 := by
  conv_lhs => rw [cnt, play_seq_spec]
  simp only [List.countP_append]
  rw [countP_autoClicks _ _ _ (fun i => by simp)]
  simp [cnt]

theorem cnt_play_seq_playSeq (s : GState) (r : Fin 4) :
    cnt (play_seq s r) .playSeq = cnt s .playSeq := by
  conv_lhs => rw [cnt, play_seq_spec]
  simp only [List.countP_append]
  rw [countP_autoClicks _ _ _ (fun i => by simp)]
  simp [cnt]

theorem cnt_new_game (s : GState) (c : Callback) (hc : smCb c = true) :
    cnt (new_game s) c = if Callback.playSeq = c then 1 else 0 := by
  show (addTimeout (stop_game s).pending 0.3 .playSeq).countP _ = _
  rw [cnt_addTimeout]
  have := cnt_stop_game s c hc
  rw [cnt] at this
  omega

theorem cnt_gameover_run (s : GState) (t : Bool) (c : Callback)
    (hc : smCb c = true) :
    cnt (gameover_run s t).2 c = 0 := by
  cases t
  · exact cnt_stop_game s c hc
  · show (addTimeout (stop_game s).pending 1.3 .playErrorSound).countP _ = 0
    rw [cnt_addTimeout]
    have := cnt_stop_game s c hc
    rw [cnt] at this
    have hne : Callback.playErrorSound ≠ c := by
      intro h; rw [← h] at hc; simp [smCb] at hc
    simp [hne, this]

theorem gameover_run_fields (s : GState) (t : Bool) :
    (gameover_run s t).2.sequence = [] ∧
    (gameover_run s t).2.player_seq = [] ∧
    (gameover_run s t).2.active = false := by
  cases t <;>
    simp [gameover_run, stop_game, deactivate_buts, remove_timeouts, all_off]

/-- The inductive invariant of the reachable states: the player progress is
a prefix of the sequence; while input is accepted the progress is strictly
shorter than the sequence; a pending turn-start callback implies input off,
progress cleared and a nonempty sequence; a pending play_seq callback
implies input off; and at most one turn-start or play_seq callback is
pending in total. -/
structure Inv (s : GState) : Prop where
  progPrefix : s.player_seq <+: s.sequence
  active_lt : s.active = true → s.player_seq.length < s.sequence.length
  act_pending : 0 < cnt s .activateButs →
      s.active = false ∧ s.player_seq = [] ∧ s.sequence ≠ []
  seq_pending : 0 < cnt s .playSeq → s.active = false
  one_act : cnt s .activateButs + cnt s .playSeq ≤ 1

theorem inv_stopped {s : GState}
    (h1 : s.sequence = []) (h2 : s.player_seq = []) (h3 : s.active = false)
    (h4 : cnt s .activateButs = 0) (h5 : cnt s .playSeq = 0) : Inv s := by
  constructor
  · rw [h1, h2]
  · rw [h3]; intro h; cases h
  · rw [h4]; intro h; cases h
  · rw [h3]; intro _; rfl
  · rw [h4, h5]; omega

theorem Inv.transfer {s s' : GState} (h : Inv s)
    (hseq : s'.sequence = s.sequence) (hps : s'.player_seq = s.player_seq)
    (hact : s'.active = s.active)
    (hca : cnt s' .activateButs = cnt s .activateButs)
    (hcp : cnt s' .playSeq = cnt s .playSeq) : Inv s' := by
  constructor
  · rw [hseq, hps]; exact h.progPrefix
  · rw [hact, hseq, hps]; exact h.active_lt
  · rw [hca, hact, hseq, hps]; exact h.act_pending
  · rw [hcp, hact]; exact h.seq_pending
  · rw [hca, hcp]; exact h.one_act

theorem play_seq_sequence (s : GState) (r : Fin 4) :
    (play_seq s r).sequence = s.sequence ++ [r] := by
  rw [play_seq_spec]

theorem play_seq_player (s : GState) (r : Fin 4) :
    (play_seq s r).player_seq = [] := by
  rw [play_seq_spec]

theorem play_seq_active (s : GState) (r : Fin 4) :
    (play_seq s r).active = false := by
  rw [play_seq_spec]

theorem player_ans_cases (s : GState) (ans : Fin 4) (s' : GState)
    (h : player_ans s ans = some s') :
    (s.sequence.get? s.player_seq.length = some ans ∧
       ((s.player_seq.length + 1 = s.sequence.length ∧
           s' = { s with player_seq := (s.player_seq ++ [ans])
                         active := false
                         pending := addTimeout
                           (removeTimeout s.pending .gameover)
                           0.5 .playSeq }) ∨
        (s.player_seq.length + 1 ≠ s.sequence.length ∧
           s' = { s with player_seq := (s.player_seq ++ [ans])
                         pending := addTimeout
                           (removeTimeout s.pending .gameover)
                           5 .gameover }))) ∨
    (∃ x, s.sequence.get? s.player_seq.length = some x ∧ x ≠ ans ∧
       s' = (gameover_run
         { s with pending := removeTimeout s.pending .gameover } false).2) := by
  cases hx : s.sequence.get? s.player_seq.length with
  | none =>
      exfalso
      simp only [player_ans, is_correct_eq] at h
      rw [hx] at h
      simp at h
  | some x =>
      simp only [player_ans, is_correct_eq] at h
      rw [hx] at h
      simp only [Option.map_some'] at h
      by_cases hxa : x = ans
      · subst hxa
        have hb : (x == x) = true := by simp
        rw [hb] at h
        by_cases hlen : s.player_seq.length + 1 = s.sequence.length
        · left
          refine ⟨rfl, Or.inl ⟨hlen, ?_⟩⟩
          simp [deactivate_buts, hlen] at h
          exact h.symm
        · left
          refine ⟨rfl, Or.inr ⟨hlen, ?_⟩⟩
          simp [deactivate_buts, hlen] at h
          exact h.symm
      · right
        refine ⟨x, rfl, hxa, ?_⟩
        have hb : (x == ans) = false := by simp [hxa]
        rw [hb] at h
        simp at h
        exact h.symm

theorem inv_player_ans {s s' : GState} {ans : Fin 4} (ih : Inv s)
    (hA : s.active = true) (hca0 : cnt s .activateButs = 0)
    (hcp0 : cnt s .playSeq = 0)
    (h : player_ans s ans = some s') : Inv s' := by
  rcases player_ans_cases s ans s' h with ⟨hget, hbr⟩ | ⟨x, hget, hxa, hs'⟩
  · have hlt : s.player_seq.length < s.sequence.length := by
      rcases List.get?_eq_some.mp hget with ⟨hl, _⟩
      exact hl
    rcases hbr with ⟨hlen, hs'⟩ | ⟨hlen, hs'⟩
    · subst hs'
      have h0 : (addTimeout (removeTimeout s.pending .gameover) 0.5
          .playSeq).countP (fun e => e.2 == Callback.activateButs) = 0 := by
        rw [cnt_addTimeout, cnt_removeTimeout_other _ _ _ (by simp)]
        rw [cnt] at hca0
        simp [hca0]
      have h1 : (addTimeout (removeTimeout s.pending .gameover) 0.5
          .playSeq).countP (fun e => e.2 == Callback.playSeq) = 1 := by
        rw [cnt_addTimeout, cnt_removeTimeout_other _ _ _ (by simp)]
        rw [cnt] at hcp0
        simp [hcp0]
      constructor
      · exact prefix_append_of_get ih.progPrefix hget
      · intro hcontra; cases hcontra
      · intro hcontra
        rw [cnt] at hcontra
        simp only [h0] at hcontra
        cases hcontra
      · intro _; rfl
      · show (addTimeout _ _ _).countP _ + (addTimeout _ _ _).countP _ ≤ 1
        rw [h0, h1]
    · subst hs'
      have h0 : (addTimeout (removeTimeout s.pending .gameover) 5
          .gameover).countP (fun e => e.2 == Callback.activateButs) = 0 := by
        rw [cnt_addTimeout, cnt_removeTimeout_other _ _ _ (by simp)]
        rw [cnt] at hca0
        simp [hca0]
      have h1 : (addTimeout (removeTimeout s.pending .gameover) 5
          .gameover).countP (fun e => e.2 == Callback.playSeq) = 0 := by
        rw [cnt_addTimeout, cnt_removeTimeout_other _ _ _ (by simp)]
        rw [cnt] at hcp0
        simp [hcp0]
      constructor
      · exact prefix_append_of_get ih.progPrefix hget
      · intro _
        show (s.player_seq ++ [ans]).length < s.sequence.length
        simp only [List.length_append, List.length_cons, List.length_nil]
        omega
      · intro hcontra
        rw [cnt] at hcontra
        simp only [h0] at hcontra
        cases hcontra
      · intro hcontra
        rw [cnt] at hcontra
        simp only [h1] at hcontra
        cases hcontra
      · show (addTimeout _ _ _).countP _ + (addTimeout _ _ _).countP _ ≤ 1
        rw [h0, h1]
        omega
  · subst hs'
    obtain ⟨g1, g2, g3⟩ := gameover_run_fields _ false
    exact inv_stopped g1 g2 g3 (cnt_gameover_run _ _ _ rfl)
      (cnt_gameover_run _ _ _ rfl)

theorem reach_inv {s : GState} (h : Reach s) : Inv s := by
  induction h with
  | base => exact inv_stopped rfl rfl rfl rfl rfl
  | next hr hstep ih =>
      rename_i s0 s' e
      clear hr
      cases e with
      | start =>
          simp only [step, Option.some_inj] at hstep
          subst hstep
          have ha : cnt (new_game s0) .activateButs = 0 := by
            rw [cnt_new_game s0 Callback.activateButs rfl]; simp
          have hp : cnt (new_game s0) .playSeq = 1 := by
            rw [cnt_new_game s0 Callback.playSeq rfl]; simp
          constructor
          · show ([] : List (Fin 4)) <+: []
            exact List.nil_prefix
          · intro hcontra; cases hcontra
          · rw [ha]; intro hcontra; cases hcontra
          · intro _; rfl
          · rw [ha, hp]
      | stop =>
          simp only [step, Option.some_inj] at hstep
          subst hstep
          exact inv_stopped rfl rfl rfl (cnt_stop_game _ _ rfl)
            (cnt_stop_game _ _ rfl)
      | fireSeq r =>
          simp only [step] at hstep
          split at hstep
          case isFalse => cases hstep
          case isTrue hg =>
            rw [Option.some_inj] at hstep
            subst hstep
            have hpos : 0 < cnt s0 .playSeq := (hasCb_iff s0 .playSeq).mp hg
            have hone := ih.one_act
            have hfp : cnt (fire s0 .playSeq) .playSeq = 0 := by
              have h1 := cnt_fire_self s0 .playSeq
              rw [if_pos hg] at h1
              omega
            have hfa : cnt (fire s0 .playSeq) .activateButs = 0 := by
              rw [cnt_fire_other _ _ _ (by simp)]
              omega
            constructor
            · rw [play_seq_player]
              exact List.nil_prefix
            · rw [play_seq_active]; intro hcontra; cases hcontra
            · intro _
              refine ⟨play_seq_active _ _, play_seq_player _ _, ?_⟩
              rw [play_seq_sequence]; simp
            · intro _; exact play_seq_active _ _
            · rw [cnt_play_seq_act, cnt_play_seq_playSeq, hfa, hfp]
      | fireActivate =>
          simp only [step] at hstep
          split at hstep
          case isFalse => cases hstep
          case isTrue hg =>
            rw [Option.some_inj] at hstep
            subst hstep
            have hpos : 0 < cnt s0 .activateButs := (hasCb_iff _ _).mp hg
            obtain ⟨hact, hps, hseq⟩ := ih.act_pending hpos
            have hone := ih.one_act
            have hfa : cnt (fire s0 .activateButs) .activateButs = 0 := by
              have h1 := cnt_fire_self s0 .activateButs
              rw [if_pos hg] at h1
              omega
            have hfp : cnt (fire s0 .activateButs) .playSeq = 0 := by
              rw [cnt_fire_other _ _ _ (by simp)]
              omega
            constructor
            · show s0.player_seq <+: s0.sequence
              exact ih.progPrefix
            · intro _
              show s0.player_seq.length < s0.sequence.length
              rw [hps]
              simpa using List.length_pos.mpr hseq
            · intro hcontra
              have h0 : cnt (activate_buts (fire s0 .activateButs))
                  .activateButs = 0 := hfa
              omega
            · intro hcontra
              have h0 : cnt (activate_buts (fire s0 .activateButs))
                  .playSeq = 0 := hfp
              omega
            · have h0 : cnt (activate_buts (fire s0 .activateButs))
                  .activateButs = 0 := hfa
              have h1 : cnt (activate_buts (fire s0 .activateButs))
                  .playSeq = 0 := hfp
              omega
      | fireTimeout =>
          simp only [step] at hstep
          split at hstep
          case isFalse => cases hstep
          case isTrue hg =>
            rw [Option.some_inj] at hstep
            subst hstep
            obtain ⟨g1, g2, g3⟩ := gameover_run_fields (fire s0 .gameover) true
            exact inv_stopped g1 g2 g3 (cnt_gameover_run _ _ _ rfl)
              (cnt_gameover_run _ _ _ rfl)
      | fireAutoClick i d =>
          simp only [step] at hstep
          split at hstep
          case isFalse => cases hstep
          case isTrue hg =>
            rw [Option.some_inj] at hstep
            subst hstep
            refine ih.transfer rfl rfl rfl ?_ ?_
            · show (addTimeout (removeTimeout
                  (fire s0 (.autoClick i)).pending (.butOff i)) d
                  (.butOff i)).countP _ = _
              rw [cnt_addTimeout, cnt_removeTimeout_other _ _ _ (by simp)]
              have h1 : cnt (fire s0 (.autoClick i)) .activateButs =
                  cnt s0 .activateButs := cnt_fire_other _ _ _ (by simp)
              rw [cnt] at h1
              simp [h1, cnt]
            · show (addTimeout (removeTimeout
                  (fire s0 (.autoClick i)).pending (.butOff i)) d
                  (.butOff i)).countP _ = _
              rw [cnt_addTimeout, cnt_removeTimeout_other _ _ _ (by simp)]
              have h1 : cnt (fire s0 (.autoClick i)) .playSeq =
                  cnt s0 .playSeq := cnt_fire_other _ _ _ (by simp)
              rw [cnt] at h1
              simp [h1, cnt]
      | fireButOff i =>
          simp only [step] at hstep
          split at hstep
          case isFalse => cases hstep
          case isTrue hg =>
            rw [Option.some_inj] at hstep
            subst hstep
            exact ih.transfer rfl rfl rfl
              (cnt_fire_other _ _ _ (by simp))
              (cnt_fire_other _ _ _ (by simp))
      | fireErrStop =>
          simp only [step] at hstep
          split at hstep
          case isFalse => cases hstep
          case isTrue hg =>
            rw [Option.some_inj] at hstep
            subst hstep
            exact ih.transfer rfl rfl rfl
              (cnt_fire_other _ _ _ (by simp))
              (cnt_fire_other _ _ _ (by simp))
      | press i =>
          by_cases hA : s0.active = true
          · simp [step, press, hA, manual_click, is_correct_run] at hstep
            have hca0 : cnt s0 .activateButs = 0 := by
              by_contra hc
              have hfalse := (ih.act_pending (by omega)).1
              rw [hA] at hfalse
              cases hfalse
            have hcp0 : cnt s0 .playSeq = 0 := by
              by_contra hc
              have hfalse := ih.seq_pending (by omega)
              rw [hA] at hfalse
              cases hfalse
            refine inv_player_ans ?_ ?_ ?_ ?_ hstep
            · exact ih.transfer rfl rfl hA.symm rfl rfl
            · rfl
            · exact hca0
            · exact hcp0
          · simp only [Bool.not_eq_true] at hA
            simp [step, press, hA] at hstep
            subst hstep
            exact ih

theorem stop_game_stop_game (s : GState) :
    stop_game (stop_game s) = stop_game s := by
  have hp : (stop_game (stop_game s)).pending = (stop_game s).pending := by
    rw [stop_game_pending (stop_game s), stop_game_pending s,
      List.filter_filter]
    refine List.filter_congr (fun e _ => ?_)
    rw [Bool.and_self]
  have hl : (stop_game (stop_game s)).lights = (stop_game s).lights := by
    show ((s.lights.map fun _ => false).map fun _ => false) =
      s.lights.map fun _ => false
    rw [List.map_map]
    rfl
  show GState.mk _ _ _ _ _ _ _ = GState.mk _ _ _ _ _ _ _
  rw [GState.mk.injEq]
  exact ⟨rfl, rfl, rfl, rfl, rfl, hl, hp⟩

/-- C1: starting or stopping a game cancels every state-machine callback
previously pending (play_seq, the auto-play steps, the turn-start callback
activate_buts and the response-timeout callback gameover): after stop_game
the pending queue is exactly the previous queue with every such entry
dropped, and after new_game the only state-machine entry is the freshly
scheduled play_seq at 0.3 s, so no callback scheduled before the stop can
fire into the new game. -/
theorem c1_cancellation (s : GState) :
    (stop_game s).pending = s.pending.filter (fun e => !smCb e.2) ∧
    (new_game s).pending =
      s.pending.filter (fun e => !smCb e.2) ++ [(0.3, .playSeq)] := by
  refine ⟨stop_game_pending s, ?_⟩
  show addTimeout (stop_game s).pending 0.3 .playSeq = _
  rw [stop_game_pending, addTimeout]

/-- C4: at every game over the returned score is max(len(sequence) - 1, 0),
and a game over with an empty sequence yields score 0. -/
theorem c4_gameover_score (s : GState) (t : Bool) :
    (gameover_run s t).1 = max ((s.sequence.length : ℤ) - 1) 0 ∧
    (s.sequence = [] → (gameover_run s t).1 = 0) := by
  refine ⟨rfl, fun h => ?_⟩
  show max ((s.sequence.length : ℤ) - 1) 0 = 0
  rw [h]
  rfl

/-- C4 witness: the theorem applied to the freshly created window, whose
sequence is empty, gives score 0. -/
theorem c4_gameover_score_witness : (gameover_run init true).1 = 0 :=
  (c4_gameover_score init true).2 rfl

/-- C7: a press of a game button while input is not accepted is a no-op,
and in particular right after new_game the buttons are deactivated, so a
press before any sequence step has been generated leaves the state of the
new game unchanged and does not end it. -/
theorem c7_press_ignored (s : GState) (i : Fin 4) (h : s.active = false) :
    press s i = some s ∧
    (new_game s).active = false ∧
    press (new_game s) i = some (new_game s) := by
  have hng : (new_game s).active = false := rfl
  exact ⟨by simp [press, h], hng, by simp [press, hng]⟩

/-- C7 witness: the theorem applied to the freshly created window and
button 2. -/
theorem c7_press_ignored_witness :
    press init 2 = some init ∧
    (new_game init).active = false ∧
    press (new_game init) 2 = some (new_game init) :=
  c7_press_ignored init 2 rfl

/-- C8: stop_game is idempotent, it is a total function safe to apply to
any state, and the state it produces has empty sequence and player
progress, the tier-0 timing 0.46/0.108, deactivated input and no pending
state-machine callback. -/
theorem c8_stop_idempotent (s : GState) :
    stop_game (stop_game s) = stop_game s ∧
    (stop_game s).sequence = [] ∧
    (stop_game s).player_seq = [] ∧
    (stop_game s).duration = 0.46 ∧
    (stop_game s).interval = 0.108 ∧
    (stop_game s).active = false ∧
    (∀ e ∈ (stop_game s).pending, smCb e.2 = false) := by
  refine ⟨stop_game_stop_game s, rfl, rfl, rfl, rfl, rfl, fun e he => ?_⟩
  rw [stop_game_pending] at he
  have := (List.mem_filter.mp he).2
  simpa using this

/-- C9: the hit test is_correct leaves the state unchanged, because it
works on a copy of player_seq: any number of repeated calls, as made while
a button is held down before release, changes neither player_seq nor
sequence, and the manual_click that wraps it also leaves both lists
unchanged. -/
theorem c9_hit_test_pure (s : GState) (ans : Fin 4) (n : ℕ) :
    (is_correct_run s ans).2 = s ∧
    ((fun t => (is_correct_run t ans).2)^[n] s) = s ∧
    (manual_click s ans).player_seq = s.player_seq ∧
    (manual_click s ans).sequence = s.sequence := by
  refine ⟨rfl, ?_, rfl, rfl⟩
  induction n with
  | zero => rfl
  | succ n ih =>
      rw [Function.iterate_succ_apply]
      exact ih

theorem buildPlaybackPlan_get (seq : List (Fin 4)) (d iv : ℚ) (k : ℕ)
    (e : ℕ × Fin 4 × ℚ × ℚ)
    (he : (buildPlaybackPlan seq d iv).get? k = some e) :
    e.1 = k ∧ e.2.2.1 = k * (d + iv) ∧ e.2.2.2 = d ∧
    seq.get? k = some e.2.1 := by
  rw [buildPlaybackPlan, List.get?_map, List.enum_get?] at he
  cases hk : seq.get? k with
  | none => rw [hk] at he; simp at he
  | some a =>
      rw [hk] at he
      simp only [Option.map_some', Option.some_inj] at he
      subst he
      exact ⟨rfl, by ring, rfl, rfl⟩

/-- C3: for any sequence and timing, the playback plan places step k at
startOffset k * (duration + interval) with the flash lasting duration, the
offsets are strictly increasing, consecutive entries are separated by
exactly interval after the end of the previous flash, the player turn
starts at length * (duration + interval), the inactivity timeout fires 5
seconds later, and play_seq schedules exactly this plan (one auto_click
per entry, activate_buts at the turn start, gameover at the timeout). -/
theorem c3_playback_plan (seq : List (Fin 4)) (d iv : ℚ)
    (hd : 0 < d) (hiv : 0 < iv) :
    (∀ k e, (buildPlaybackPlan seq d iv).get? k = some e →
        e.1 = k ∧ e.2.2.1 = k * (d + iv) ∧ e.2.2.2 = d) ∧
    (∀ j k ej ek, j < k →
        (buildPlaybackPlan seq d iv).get? j = some ej →
        (buildPlaybackPlan seq d iv).get? k = some ek →
        ej.2.2.1 < ek.2.2.1) ∧
    (∀ k ek ek1, (buildPlaybackPlan seq d iv).get? k = some ek →
        (buildPlaybackPlan seq d iv).get? (k + 1) = some ek1 →
        ek1.2.2.1 = (ek.2.2.1 + ek.2.2.2) + iv) ∧
    turnStartOffset seq.length d iv = seq.length * (d + iv) ∧
    timeoutOffset seq.length d iv = turnStartOffset seq.length d iv + 5 ∧
    (∀ (s : GState) (r : Fin 4),
        (play_seq s r).pending = s.pending ++
          (buildPlaybackPlan (s.sequence ++ [r]) (play_seq s r).duration
            (play_seq s r).interval).map
              (fun e => (e.2.2.1, Callback.autoClick e.2.1)) ++
          [(turnStartOffset (s.sequence ++ [r]).length
              (play_seq s r).duration (play_seq s r).interval,
            .activateButs),
           (timeoutOffset (s.sequence ++ [r]).length
              (play_seq s r).duration (play_seq s r).interval,
            .gameover)]) := by
  refine ⟨fun k e he => ?_, fun j k ej ek hjk hj hk => ?_,
    fun k ek ek1 hk hk1 => ?_, by rw [turnStartOffset]; ring, rfl,
    fun s r => ?_⟩
  · obtain ⟨h1, h2, h3, _⟩ := buildPlaybackPlan_get seq d iv k e he
    exact ⟨h1, h2, h3⟩
  · rw [(buildPlaybackPlan_get seq d iv j ej hj).2.1,
      (buildPlaybackPlan_get seq d iv k ek hk).2.1]
    have hc : (j : ℚ) < k := by exact_mod_cast hjk
    have hpos : (0 : ℚ) < d + iv := by linarith
    exact mul_lt_mul_of_pos_right hc hpos
  · rw [(buildPlaybackPlan_get seq d iv (k + 1) ek1 hk1).2.1,
      (buildPlaybackPlan_get seq d iv k ek hk).2.1,
      (buildPlaybackPlan_get seq d iv k ek hk).2.2.1]
    push_cast
    ring
  · conv_lhs => rw [play_seq_spec s r]
    simp only [buildPlaybackPlan, List.map_map, turnStartOffset,
      timeoutOffset, Function.comp]
    rfl

theorem timingForLength_succ (n : ℕ) :
    timingForLength (n + 1) = updateTiming (n + 1) (timingForLength n) := by
  rw [timingForLength, timingForLength, List.range_succ, List.foldl_append]
  rfl

theorem timingForLength_eq (n : ℕ) :
    timingForLength n =
      if 14 ≤ n then ⟨0.26, 0.108⟩
      else if 6 ≤ n then ⟨0.36, 0.108⟩
      else tier0 := by
  induction n with
  | zero => rfl
  | succ n ih =>
      rw [timingForLength_succ, ih]
      simp only [updateTiming]
      split_ifs <;> first | rfl | (exfalso; omega)

/-- C5: the flash duration in force at a given sequence length is
monotonically non-increasing in the length, the timing is constant within
each tier (0.46 below length 6, 0.36 from 6 to 13, 0.26 from 14 on), and
the gap interval never changes from the first tier change on. -/
theorem c5_timing_tiers (m n : ℕ) (hmn : m ≤ n) :
    (timingForLength n).duration ≤ (timingForLength m).duration ∧
    (n < 6 → timingForLength n = tier0) ∧
    (6 ≤ n → n < 14 → timingForLength n = ⟨0.36, 0.108⟩) ∧
    (14 ≤ n → timingForLength n = ⟨0.26, 0.108⟩) ∧
    (6 ≤ n → (timingForLength n).interval = (timingForLength 6).interval) := by
  refine ⟨?_, fun h => ?_, fun h1 h2 => ?_, fun h1 => ?_, fun h => ?_⟩
  · rw [timingForLength_eq m, timingForLength_eq n]
    split_ifs <;> first | (exfalso; omega) | norm_num [tier0]
  · rw [timingForLength_eq n]
    split_ifs <;> first | rfl | (exfalso; omega)
  · rw [timingForLength_eq n]
    split_ifs <;> first | rfl | (exfalso; omega)
  · rw [timingForLength_eq n]
    split_ifs <;> first | rfl | (exfalso; omega)
  · rw [timingForLength_eq n, timingForLength_eq 6]
    split_ifs <;> first | rfl | (exfalso; omega)

/-- C5 witness: the theorem applied at lengths 3 and 20. -/
theorem c5_timing_tiers_witness :
    (timingForLength 20).duration ≤ (timingForLength 3).duration :=
  (c5_timing_tiers 3 20 (by decide)).1

/-- C3 witness: the theorem applied to the two-step sequence [0, 1] with
duration 1 and interval 1; the turn starts at 2 * (1 + 1). -/
theorem c3_playback_plan_witness :
    turnStartOffset 2 1 1 = 2 * (1 + 1) :=
  (c3_playback_plan [0, 1] 1 1 one_pos one_pos).2.2.2.1

/-- C2: in every reachable state the player progress is no longer than the
sequence and agrees with it entrywise on its whole length, i.e. it is a
prefix of the sequence. -/
theorem c2_player_progress (s : GState) (h : Reach s) :
    s.player_seq.length ≤ s.sequence.length ∧
    (∀ i, i < s.player_seq.length →
      s.player_seq.get? i = s.sequence.get? i) := by
  have hp := (reach_inv h).progPrefix
  refine ⟨hp.length_le, fun i hi => ?_⟩
  obtain ⟨t, ht⟩ := hp
  rw [← ht]
  exact (List.get?_append hi).symm

/-- C2 witness: the theorem applied to the initial state. -/
theorem c2_player_progress_witness :
    init.player_seq.length ≤ init.sequence.length :=
  (c2_player_progress init Reach.base).1

/-- C10: is_correct compares the answer against the sequence entry at
index len(player_seq); in every reachable state in which input is enabled
that index is in range, so the lookup cannot fault, while calling it in
any state whose sequence is empty faults (returns none, the embedded
IndexError). -/
theorem c10_is_correct_range (s : GState) (ans : Fin 4)
    (h : Reach s) (ha : s.active = true) :
    is_correct s ans =
      (s.sequence.get? s.player_seq.length).map (fun x => x == ans) ∧
    s.player_seq.length < s.sequence.length ∧
    is_correct s ans ≠ none ∧
    (∀ t : GState, t.sequence = [] → is_correct t ans = none) := by
  have hlt := (reach_inv h).active_lt ha
  refine ⟨is_correct_eq s ans, hlt, ?_, fun t ht => ?_⟩
  · rw [is_correct_eq, List.get?_eq_get hlt]
    simp
  · rw [is_correct_eq, ht]
    simp

/-- The window right after the start command. -/
def wstart : GState := new_game init

/-- The state after the scheduled play_seq has fired with random button 0. -/
def wplay : GState := play_seq (fire wstart .playSeq) 0

/-- The state after the scheduled activate_buts has fired: input enabled. -/
def wactive : GState := activate_buts (fire wplay .activateButs)

/-- C10 witness: after start, first sequence step 0 and the turn-start
callback, the state is reachable with input enabled and the hit test on
button 0 does not fault. -/
theorem c10_is_correct_range_witness : is_correct wactive 0 ≠ none :=
  (c10_is_correct_range wactive 0
    (@Reach.next wplay wactive Ev.fireActivate
      (@Reach.next wstart wplay (Ev.fireSeq 0)
        (@Reach.next init wstart Ev.start Reach.base rfl) rfl) rfl)
    rfl).2.2.1

theorem sorted_sortScoresDesc (l : List Score) :
    List.Sorted (fun a b : Score => b.value ≤ a.value) (sortScoresDesc l) := by
  have htrans : ∀ a b c : Score, scoreDesc a b = true → scoreDesc b c = true →
      scoreDesc a c = true := by
    intro a b c hab hbc
    simp only [scoreDesc, decide_eq_true_eq] at *
    exact le_trans hbc hab
  have htotal : ∀ a b : Score, (scoreDesc a b || scoreDesc b a) = true := by
    intro a b
    simp only [scoreDesc, Bool.or_eq_true, decide_eq_true_eq]
    exact le_total b.value a.value
  have h := @List.sorted_mergeSort Score scoreDesc htrans htotal l
  rw [List.Sorted]
  exact h.imp (fun hab => by simpa [scoreDesc] using hab)

theorem mem_sortScoresDesc {e : Score} {l : List Score} :
    e ∈ sortScoresDesc l ↔ e ∈ l :=
  (List.mergeSort_perm l scoreDesc).mem_iff

theorem sortScoresDesc_ne_nil {l : List Score} (h : l ≠ []) :
    sortScoresDesc l ≠ [] := by
  intro hc
  apply h
  have hlen := (List.mergeSort_perm l scoreDesc).length_eq
  rw [sortScoresDesc] at hc
  rw [hc] at hlen
  exact List.eq_nil_of_length_eq_zero hlen.symm

/-- C6 counterexample: a game over with 0 points in which the player
cancels the name prompt, starting from the score list holding only the
placeholder, leaves the score list empty: the placeholder is removed and,
because the score is at most 2 points, nothing is put back, so the list
does not always contain at least one entry. -/
theorem c6_scores_counterexample :
    gameoverScores [defaultScore] 0 "12/10/2026 10:00:00" none none none
      = [] := rfl

/-- C6 as amended: whenever a real score is recorded (a name was given, or
the last-chance prompt was taken after cancelling with more than 2
points), the placeholder entries have been removed beforehand and the
resulting list is sorted descending by points and nonempty.  But the list
does not always keep at least one entry, and the placeholder does not
exist only while the list is otherwise empty: cancelling with more than 2
points and discarding appends the placeholder back even when real scores
remain, and cancelling with at most 2 points records nothing, leaving just
the surviving real scores, which may be none at all. -/
theorem c6_scores_amended (scores : List Score) (points : ℤ) (date : String)
    (name1 : Option String) (choice : Option ℕ) (name2 : Option String)
    (hd : date ≠ "N/A") :
    ((name1.isSome ∨ (2 < points ∧ ∃ k, choice = some (k + 1))) →
        (List.Sorted (fun a b : Score => b.value ≤ a.value)
            (gameoverScores scores points date name1 choice name2) ∧
         (∀ e ∈ gameoverScores scores points date name1 choice name2,
            e.date ≠ "N/A") ∧
         gameoverScores scores points date name1 choice name2 ≠ [])) ∧
    (name1 = none → 2 < points → (choice = none ∨ choice = some 0) →
        gameoverScores scores points date name1 choice name2 =
          removeDefaultScores scores ++ [defaultScore]) ∧
    (name1 = none → points ≤ 2 →
        gameoverScores scores points date name1 choice name2 =
          removeDefaultScores scores) := by
  have hins : ∀ sc : Score, sc.date ≠ "N/A" →
      List.Sorted (fun a b : Score => b.value ≤ a.value)
        (sortScoresDesc (removeDefaultScores scores ++ [sc])) ∧
      (∀ e ∈ sortScoresDesc (removeDefaultScores scores ++ [sc]),
        e.date ≠ "N/A") ∧
      sortScoresDesc (removeDefaultScores scores ++ [sc]) ≠ [] := by
    intro sc hsc
    refine ⟨sorted_sortScoresDesc _, fun e he => ?_,
      sortScoresDesc_ne_nil (by simp)⟩
    rw [mem_sortScoresDesc] at he
    rcases List.mem_append.mp he with h1 | h1
    · have := (List.mem_filter.mp h1).2
      simpa using this
    · have : e = sc := by simpa using h1
      rw [this]
      exact hsc
  rcases name1 with _ | nm
  · by_cases hp : 2 < points
    · rcases choice with _ | k
      · have hg : gameoverScores scores points date none none name2 =
            removeDefaultScores scores ++ [defaultScore] := by
          simp only [gameoverScores, if_pos hp]
        refine ⟨fun h => ?_, fun _ _ _ => hg, fun _ hle => ?_⟩
        · rcases h with h | ⟨_, k, hk⟩
          · simp at h
          · cases hk
        · exfalso; omega
      · rcases k with _ | k
        · have hg : gameoverScores scores points date none (some 0) name2 =
              removeDefaultScores scores ++ [defaultScore] := by
            simp only [gameoverScores, if_pos hp]
          refine ⟨fun h => ?_, fun _ _ _ => hg, fun _ hle => ?_⟩
          · rcases h with h | ⟨_, j, hj⟩
            · simp at h
            · simp at hj
          · exfalso; omega
        · have hg : gameoverScores scores points date none (some (k + 1))
              name2 = sortScoresDesc (removeDefaultScores scores ++
                [⟨points, orAnonymous name2, date⟩]) := by
            simp only [gameoverScores, if_pos hp]
          refine ⟨fun _ => ?_, fun _ _ hc => ?_, fun _ hle => ?_⟩
          · rw [hg]
            exact hins ⟨points, orAnonymous name2, date⟩ hd
          · rcases hc with hc | hc <;> simp at hc
          · exfalso; omega
    · have hg : gameoverScores scores points date none choice name2 =
          removeDefaultScores scores := by
        simp only [gameoverScores, if_neg hp]
      refine ⟨fun h => ?_, fun _ hpp _ => absurd hpp hp, fun _ _ => hg⟩
      rcases h with h | ⟨hpp, _⟩
      · simp at h
      · exact absurd hpp hp
  · have hg : gameoverScores scores points date (some nm) choice name2 =
        sortScoresDesc (removeDefaultScores scores ++
          [⟨points, orAnonymous (some nm), date⟩]) := rfl
    refine ⟨fun _ => ?_, fun h => ?_, fun h => ?_⟩
    · rw [hg]
      exact hins ⟨points, orAnonymous (some nm), date⟩ hd
    · cases h
    · cases h

/-- C6 witness for the amended theorem: a cancelled 1-point game over on a
placeholder-only list keeps nothing. -/
theorem c6_scores_amended_witness :
    gameoverScores [defaultScore] 1 "12/10/2026 10:00:00" none none none =
      removeDefaultScores [defaultScore] :=
  (c6_scores_amended [defaultScore] 1 "12/10/2026 10:00:00" none none none
    (by decide)).2.2 rfl (by decide)

end Simon
